import Mathlib

/-!
Verification of the risk-guarded trading core of the `ai-agents` repository.

The Python modules `trader/paper_engine.py`, `trader/risk_guard.py`,
`trader/ledger.py`, `trader/reconcile_live.py`, `trader/brokers/ccxt_live.py`,
`trader/brokers/paper.py` and `trader/run_paper_sim_yahoo.py` are shallowly
embedded below.  Python floats are modelled as exact rationals (`ℚ`),
Python ints as `ℤ`/`ℕ`, `None`-able values as `Option`, raised exceptions as
`Except`/`Option`, and the CSV/JSON stores read by the ledger as explicit
lists of rows.
-/

namespace Trader

/-- One OHLCV candle `(ts_ms, open, high, low, close, volume)`
as in `paper_engine.OHLCV`. -/
structure Candle where
  ts : Int
  o : ℚ
  h : ℚ
  l : ℚ
  c : ℚ
  v : ℚ
deriving Repr, DecidableEq

/-- `PaperState` from `trader/paper_engine.py`. -/
structure PaperState where
  cash_quote : ℚ
  pos_base : ℚ
  last_ts : Option Int := none
  prev_diff : Option ℚ := none
  peak_equity_quote : Option ℚ := none
  max_drawdown_pct : ℚ := 0
  trades_total : ℕ := 0
deriving Repr, DecidableEq

/-- One element of the `new_trades` list built by `simulate_ma_cross`. -/
structure TradeRec where
  time_ms : Int
  symbol : String
  side : String
  price : ℚ
  qty : ℚ
  notional_quote : ℚ
  fee_quote : ℚ
  cash_quote_after : ℚ
  pos_base_after : ℚ
  reason : String
deriving Repr, DecidableEq

/-- The four rolling-SMA locals (`short_q`, `short_sum`, `long_q`, `long_sum`)
of `simulate_ma_cross`. -/
structure Windows where
  short_q : List ℚ
  short_sum : ℚ
  long_q : List ℚ
  long_sum : ℚ
deriving Repr, DecidableEq

/-- The loop state of `simulate_ma_cross`: rolling windows, the mutable
`PaperState`, and the accumulated `new_trades` / `equity_curve`. -/
structure SimAcc where
  w : Windows
  state : PaperState
  trades : List TradeRec
  equity_curve : List (Int × ℚ)
deriving Repr, DecidableEq

/-- Parameters of `simulate_ma_cross` after the clamping at the top of the
function (`risk_pct` clamped to `[0,1]`, `fee_rate` to `[0,∞)`,
`slip = slippage_bps / 10000`). -/
structure SimParams where
  ma_short : Int
  ma_long : Int
  risk_pct : ℚ
  fee_rate : ℚ
  slip : ℚ
  symbol : String
deriving Repr, DecidableEq

/-- `slippage_bps / 10000.0` (`_slip_factor`). -/
def slipFactor (slippage_bps : ℚ) : ℚ := slippage_bps / 10000

/-- Append `close`, add it to the running sum, and drop the oldest element
when the queue exceeds `n` (the `short_q` / `long_q` update). -/
def pushWindow (q : List ℚ) (sum : ℚ) (n : Int) (close : ℚ) : List ℚ × ℚ :=
  let q2 := q ++ [close]
  let s2 := sum + close
  if n < (q2.length : Int) then (q2.tail, s2 - q2.headD 0) else (q2, s2)

/-- Update both rolling windows with the candle close. -/
def updateWindows (ma_short ma_long : Int) (w : Windows) (close : ℚ) : Windows :=
  let s := pushWindow w.short_q w.short_sum ma_short close
  let l := pushWindow w.long_q w.long_sum ma_long close
  ⟨s.1, s.2, l.1, l.2⟩

/-- `short_ma = short_sum / ma_short if len(short_q) == ma_short else None`. -/
def maOf (q : List ℚ) (sum : ℚ) (n : Int) : Option ℚ :=
  if (q.length : Int) = n then some (sum / (n : ℚ)) else none

/-- `state.last_ts is not None and ts <= state.last_ts`. -/
def skipCandle (last_ts : Option Int) (ts : Int) : Bool :=
  match last_ts with
  | none => false
  | some t => decide (ts ≤ t)

/-- `if state.peak_equity_quote is None or eq > state.peak_equity_quote:
state.peak_equity_quote = eq`. -/
def updatePeak : Option ℚ → ℚ → Option ℚ
  | none, eq => some eq
  | some pk, eq => if pk < eq then some eq else some pk

/-- The drawdown update guarded by Python truthiness
(`if state.peak_equity_quote and state.peak_equity_quote > 0`). -/
def updateDrawdown (peak : Option ℚ) (eq mdd : ℚ) : ℚ :=
  match peak with
  | some pk =>
      if pk ≠ 0 ∧ 0 < pk then
        let dd := (eq / pk - 1) * 100
        if dd < mdd then dd else mdd
      else mdd
  | none => mdd

/-- The tail of the loop body: mark equity, update peak and drawdown, then
persist `prev_diff` and `last_ts`. -/
def finishCandle (acc : SimAcc) (ts : Int) (close diff : ℚ) : SimAcc :=
  let st := acc.state
  let eq := st.cash_quote + st.pos_base * close
  let peak := updatePeak st.peak_equity_quote eq
  let mdd := updateDrawdown peak eq st.max_drawdown_pct
  { acc with
    state := { st with peak_equity_quote := peak, max_drawdown_pct := mdd,
                       prev_diff := some diff, last_ts := some ts },
    equity_curve := acc.equity_curve ++ [(ts, eq)] }

/-- The signal/trade part of the loop body, entered once both MAs are ready
and the candle is not skipped. -/
def tradeStep (p : SimParams) (acc : SimAcc) (ts : Int) (close diff : ℚ) : SimAcc :=
  match acc.state.prev_diff with
  | none =>
      -- init prev_diff, mark equity, update peak, continue
      let st := { acc.state with prev_diff := some diff, last_ts := some ts }
      let eq := st.cash_quote + st.pos_base * close
      let st2 := { st with peak_equity_quote := updatePeak st.peak_equity_quote eq }
      { acc with state := st2, equity_curve := acc.equity_curve ++ [(ts, eq)] }
  | some prev =>
      if prev ≤ 0 ∧ 0 < diff ∧ 0 < acc.state.cash_quote ∧ 0 < p.risk_pct then
        -- BUY: allocate risk_pct of current cash
        let st := acc.state
        let invest := st.cash_quote * p.risk_pct
        let exec_price := close * (1 + p.slip)
        let qty := if 0 < exec_price then invest / exec_price else 0
        let notional := qty * exec_price
        let fee := notional * p.fee_rate
        let st2 := { st with cash_quote := st.cash_quote - (notional + fee),
                             pos_base := st.pos_base + qty,
                             trades_total := st.trades_total + 1 }
        let t : TradeRec := ⟨ts, p.symbol, "BUY", exec_price, qty, notional, fee,
                             st2.cash_quote, st2.pos_base, "ma_cross_up_buy"⟩
        finishCandle { acc with state := st2, trades := acc.trades ++ [t] } ts close diff
      else if 0 ≤ prev ∧ diff < 0 ∧ 0 < acc.state.pos_base then
        -- SELL: close all
        let st := acc.state
        let qty := st.pos_base
        let exec_price := close * (1 - p.slip)
        let notional := qty * exec_price
        let fee := notional * p.fee_rate
        let st2 := { st with pos_base := 0,
                             cash_quote := st.cash_quote + (notional - fee),
                             trades_total := st.trades_total + 1 }
        let t : TradeRec := ⟨ts, p.symbol, "SELL", exec_price, qty, notional, fee,
                             st2.cash_quote, st2.pos_base, "ma_cross_down_sell"⟩
        finishCandle { acc with state := st2, trades := acc.trades ++ [t] } ts close diff
      else
        finishCandle acc ts close diff

/-- One iteration of the `for (ts, o, h, l, c, v) in ohlcv` loop of
`simulate_ma_cross`. -/
def stepCandle (p : SimParams) (acc : SimAcc) (cd : Candle) : SimAcc :=
  let close := cd.c
  let w := updateWindows p.ma_short p.ma_long acc.w close
  if skipCandle acc.state.last_ts cd.ts then { acc with w := w }
  else
    match maOf w.short_q w.short_sum p.ma_short, maOf w.long_q w.long_sum p.ma_long with
    | some sma, some lma => tradeStep p { acc with w := w } cd.ts close (sma - lma)
    | _, _ => { acc with w := w, state := { acc.state with last_ts := some cd.ts } }

/-- Parameter clamping done at the top of `simulate_ma_cross`. -/
def mkParams (ma_short ma_long : Int) (risk_pct fee_rate slippage_bps : ℚ)
    (symbol : String) : SimParams :=
  ⟨ma_short, ma_long, max 0 (min risk_pct 1), max 0 fee_rate,
   slipFactor slippage_bps, symbol⟩

/-- The initial loop state: empty windows, the given `PaperState`, and empty
`new_trades` / `equity_curve`. -/
def initAcc (state : PaperState) : SimAcc := ⟨⟨[], 0, [], 0⟩, state, [], []⟩

/-- `simulate_ma_cross` from `trader/paper_engine.py`; the `ValueError` on
invalid MA parameters is modelled as `none`. -/
def simulate_ma_cross (ohlcv : List Candle) (state : PaperState)
    (ma_short ma_long : Int) (risk_pct fee_rate slippage_bps : ℚ)
    (symbol : String) : Option (PaperState × List TradeRec × List (Int × ℚ)) :=
  if ma_short ≤ 0 ∨ ma_long ≤ 0 ∨ ma_long ≤ ma_short then none
  else
    let p := mkParams ma_short ma_long risk_pct fee_rate slippage_bps symbol
    let fin := ohlcv.foldl (stepCandle p) (initAcc state)
    some (fin.state, fin.trades, fin.equity_curve)

/-- The successive loop states (`SimAcc` values) traversed by
`simulate_ma_cross`, candle by candle. -/
def simTrace (ohlcv : List Candle) (state : PaperState)
    (ma_short ma_long : Int) (risk_pct fee_rate slippage_bps : ℚ)
    (symbol : String) : List SimAcc :=
  List.scanl (stepCandle (mkParams ma_short ma_long risk_pct fee_rate slippage_bps symbol))
    (initAcc state) ohlcv

/-! ## Configuration (`trader/config.py`) -/

/-- Python `str.upper()` (ASCII, like `Char.toUpper`); defined by structural
recursion on the character list so that it evaluates in the kernel. -/
def strUpper (s : String) : String := ⟨s.data.map Char.toUpper⟩

/-- Python `str.lower()`. -/
def strLower (s : String) : String := ⟨s.data.map Char.toLower⟩

/-- The fields of `TraderConfig` used by the risk guard, the reconciler and
the live broker's retry wrapper. -/
structure TraderConfig where
  trader_mode : String := "paper"
  ccxt_api_key : String := ""
  ccxt_api_secret : String := ""
  trader_live_confirm : String := ""
  jpy_per_usdt : ℚ := 150
  max_daily_loss_jpy : ℚ := 1000
  loss_guard_ccy : String := "JPY"
  max_position_notional_quote : ℚ := 100
  max_position_notional_jpy : ℚ := 15000
  max_spread_bps : ℚ := 30
  retry_max : ℕ := 3
  retry_base_sec : ℚ := 1
  dry_run : Bool := false
deriving Repr, DecidableEq

/-- `TraderConfig.is_live_capable`; the Python truthiness of the key/secret
strings is nonemptiness. -/
def TraderConfig.is_live_capable (c : TraderConfig) : Bool :=
  (c.trader_mode == "testnet" || c.trader_mode == "live") &&
  (c.trader_live_confirm == "I_UNDERSTAND_LIVE_TRADING_RISK") &&
  (c.ccxt_api_key != "") && (c.ccxt_api_secret != "") && (!c.dry_run)

/-! ## Ledger (`trader/ledger.py`)

The append-only CSV files are modelled as the lists of rows they contain;
a missing file is the empty list (both make `get_daily_pnl` return `0.0`).
The wall clock `time.time()` is passed explicitly as `now_sec`. -/

/-- One row of `live_balance_snapshots_history.csv` as read back by
`get_daily_pnl`. -/
structure BalanceSnapshot where
  timestamp : Int
  equity_quote : ℚ
  equity_jpy : ℚ
deriving Repr, DecidableEq

/-- One row of `live_trades_history.csv` as read back by
`get_recent_trades` (the fields the risk guard and reconciler use). -/
structure LedgerTradeRow where
  timestamp : Int
  trade_id : String
  side : String
  amount : ℚ
  price : ℚ
  cost : ℚ
  fee : ℚ
deriving Repr, DecidableEq

/-- The ledger's on-disk contents. -/
structure Ledger where
  snapshots : List BalanceSnapshot
  trades : List LedgerTradeRow
deriving Repr, DecidableEq

/-- `Ledger.get_recent_trades(days)`: rows with
`timestamp >= (time.time() - days*24*3600) * 1000`. -/
def Ledger.get_recent_trades (lg : Ledger) (days : Int) (now_sec : Int) :
    List LedgerTradeRow :=
  lg.trades.filter fun t => decide ((now_sec - days * 24 * 3600) * 1000 ≤ t.timestamp)

/-- `Ledger.get_daily_pnl`: difference between the last and first balance
snapshot of the current UTC day, in the guard currency.  Python truthiness of
`s['equity_quote'] or s['equity_jpy']` is being nonzero; `time.time() //
(24*3600)` is floor division, i.e. `Int.fdiv`. -/
def Ledger.get_daily_pnl (lg : Ledger) (config : TraderConfig) (now_sec : Int) : ℚ :=
  if lg.snapshots = [] then 0
  else if ¬ lg.snapshots.any (fun s => s.equity_quote ≠ 0 ∨ s.equity_jpy ≠ 0) then 0
  else
    let today_start := (Int.fdiv now_sec (24 * 3600)) * (24 * 3600) * 1000
    let today := lg.snapshots.filter fun s => decide (today_start ≤ s.timestamp)
    if today.length < 2 then 0
    else
      let d : BalanceSnapshot := ⟨0, 0, 0⟩
      if strUpper config.loss_guard_ccy = "JPY" then
        (today.getLastD d).equity_jpy - (today.headD d).equity_jpy
      else
        (today.getLastD d).equity_quote - (today.headD d).equity_quote

/-! ## Risk guard (`trader/risk_guard.py`) -/

/-- The broker data consumed by `check_risk_limits`:
`fetch_balance()['total']['BTC']`, `fetch_balance()['free']['USDT']` and the
`last`/`bid`/`ask` fields of `fetch_ticker(symbol)`. -/
structure BrokerView where
  btc_total : ℚ
  usdt_free : ℚ
  ticker_last : ℚ
  ticker_bid : ℚ
  ticker_ask : ℚ
deriving Repr, DecidableEq

/-- Render a rational with two decimals (the `f"{x:.2f}"` of the reason
strings; only the text around the numbers matters to the claims). -/
def fmt2 (x : ℚ) : String :=
  let n : Int := Int.floor (x * 100 + 1 / 2)
  let sign := if n < 0 then "-" else ""
  let m := n.natAbs
  sign ++ toString (m / 100) ++ "." ++ (if m % 100 < 10 then "0" else "") ++ toString (m % 100)

/-- The loss limit expressed in the guard currency
(`config.max_daily_loss_jpy` as-is for JPY, converted by `jpy_per_usdt`
otherwise). -/
def lossLimit (config : TraderConfig) : ℚ :=
  if strUpper config.loss_guard_ccy = "JPY" then config.max_daily_loss_jpy
  else config.max_daily_loss_jpy / config.jpy_per_usdt

/-- The `for trade in reversed(recent_trades[-5:])` loop: count consecutive
approximated losses, stopping at the first non-loss. -/
def consecLosses : List LedgerTradeRow → ℕ
  | [] => 0
  | t :: rest =>
      let pnl := if t.side = "sell" then t.cost - t.fee else -t.cost - t.fee
      if pnl < 0 then consecLosses rest + 1 else 0

/-- `check_risk_limits` from `trader/risk_guard.py`: returns
`(allowed, reason)`; the four checks run in order, first failure wins. -/
def check_risk_limits (config : TraderConfig) (ledger : Ledger) (broker : BrokerView)
    (action : Option String) (now_sec : Int) : Bool × String :=
  -- Daily loss limit
  let daily_pnl := ledger.get_daily_pnl config now_sec
  let unit := strUpper config.loss_guard_ccy
  if daily_pnl < -lossLimit config then
    (false, "Daily loss limit exceeded: loss_" ++ strLower unit ++ "=" ++ fmt2 daily_pnl
      ++ " " ++ unit ++ ", start_" ++ strLower unit ++ "=" ++ fmt2 0
      ++ ", equity_" ++ strLower unit ++ "=" ++ fmt2 daily_pnl)
  else
    -- Position size limit (check after potential trade)
    let posCheck : Option (Bool × String) :=
      if action = some "buy" then
        let current_pos := broker.btc_total
        let quote_balance := broker.usdt_free
        let price := broker.ticker_last
        let potential_pos := current_pos + quote_balance / price * (99 / 100)
        let notional_quote := potential_pos * price
        let notional_jpy := notional_quote * config.jpy_per_usdt
        if config.max_position_notional_quote < notional_quote then
          some (false, "Position size limit exceeded: notional_quote=" ++ fmt2 notional_quote
            ++ " > max_quote=" ++ fmt2 config.max_position_notional_quote ++ " USDT")
        else if config.max_position_notional_jpy < notional_jpy then
          some (false, "Position size limit exceeded: notional_jpy=" ++ fmt2 notional_jpy
            ++ " > max_jpy=" ++ fmt2 config.max_position_notional_jpy ++ " JPY")
        else none
      else none
    match posCheck with
    | some r => r
    | none =>
      -- Spread check
      let bid := broker.ticker_bid
      let ask := broker.ticker_ask
      let spreadDeny : Bool :=
        decide (0 < bid) && decide (0 < ask) &&
        decide (config.max_spread_bps < (ask - bid) / bid * 10000)
      if spreadDeny then
        (false, "Spread too wide: " ++ fmt2 ((ask - bid) / bid * 10000) ++ " bps")
      else
        -- Consecutive losses (simplified: recent trades pnl)
        let recent_trades := ledger.get_recent_trades 1 now_sec
        let tail5 := (recent_trades.drop (recent_trades.length - 5)).reverse
        let n := if recent_trades = [] then 0 else consecLosses tail5
        if 3 ≤ n then (false, "Consecutive losses: " ++ toString n)
        else (true, "OK")

/-! ## Reconciler (`trader/reconcile_live.py`)

The decision logic of `main()` is embedded as a pure function of the
configuration, the ledger contents and the exchange data that
`fetch_balance` / `fetch_my_trades` would return.  File writes, stdout and
the process exit code are outside the embedding. -/

/-- The result record written to `reconcile_latest.json`
(`details` reduced to the discrepancy list the claims talk about). -/
structure ReconcileResult where
  ok : Bool
  ts : Int
  reason : String
  discrepancies : List String
deriving Repr, DecidableEq

/-- Exchange ground truth used by the full check: balance totals and the ids
of `fetch_my_trades`. -/
structure ExchangeView where
  usdt_total : ℚ
  btc_total : ℚ
  my_trade_ids : List String
deriving Repr, DecidableEq

/-- The branch structure of `reconcile_live.main()`: paper (and any other
non-live mode) records ok, live/testnet without credentials records
`NOT_CONFIGURED_LIVE`, otherwise ledger and exchange trade ids are compared
(sets modelled by deduplicated lists). -/
def reconcileMain (config : TraderConfig) (ledger : Ledger) (ex : ExchangeView)
    (ts : Int) (now_sec : Int) : ReconcileResult :=
  let is_full_check := config.trader_mode == "testnet" || config.trader_mode == "live"
  if is_full_check && !config.is_live_capable then
    ⟨false, ts, "NOT_CONFIGURED_LIVE", []⟩
  else if !is_full_check then
    ⟨true, ts, "SKIP_MODE_" ++ strUpper config.trader_mode, []⟩
  else
    let ledger_trades := ledger.get_recent_trades 1 now_sec
    let ledger_ids :=
      ((ledger_trades.filter fun t => t.trade_id ≠ "").map (·.trade_id)).eraseDups
    let exchange_ids := ex.my_trade_ids.eraseDups
    let missing_in_ledger := exchange_ids.filter fun i => ¬ ledger_ids.contains i
    let missing_in_exchange := ledger_ids.filter fun i => ¬ exchange_ids.contains i
    let d1 := if missing_in_ledger ≠ [] then
        ["Trades missing in ledger: " ++ String.intercalate ", " missing_in_ledger] else []
    let d2 := if missing_in_exchange ≠ [] then
        ["Trades missing in exchange: " ++ String.intercalate ", " missing_in_exchange] else []
    let discrepancies := d1 ++ d2
    let ok := discrepancies.length = 0
    ⟨ok, ts, if discrepancies.length = 0 then "OK" else "DISCREPANCIES", discrepancies⟩

/-! ## Live broker retry wrapper (`trader/brokers/ccxt_live.py`) -/

/-- Failure kinds as classified by `reconcile_live.classify_exception`. -/
inductive ErrKind
  | auth
  | rateLimit
  | timeSkew
  | network
  | exchangeDown
  | unknown
deriving Repr, DecidableEq

/-- Outcome of `CCXTBroker._retry_request`: the returned value or the raised
exception, together with the `time.sleep` durations performed and the number
of times the wrapped function was called. -/
structure RetryOutcome (α : Type) where
  result : Except ErrKind α
  waits : List ℚ
  calls : ℕ
deriving Repr

/-- The `for attempt in range(retry_max + 1)` loop of `_retry_request`,
starting at a given attempt index.  `f i` is what the wrapped call does on
attempt `i` (return a value or raise). -/
def retryLoop (retry_max : ℕ) (base : ℚ) (f : ℕ → Except ErrKind α) :
    ℕ → RetryOutcome α
  | attempt =>
    match f attempt with
    | .ok a => ⟨.ok a, [], 1⟩
    | .error e =>
        if h : attempt < retry_max then
          let r := retryLoop retry_max base f (attempt + 1)
          ⟨r.result, base * 2 ^ attempt :: r.waits, r.calls + 1⟩
        else ⟨.error e, [], 1⟩
  termination_by attempt => retry_max + 1 - attempt

/-- `CCXTBroker._retry_request`: retry with exponential backoff
`base * 2 ** attempt`, re-raising the last exception after
`retry_max + 1` attempts. -/
def retry_request (retry_max : ℕ) (base : ℚ) (f : ℕ → Except ErrKind α) :
    RetryOutcome α :=
  retryLoop retry_max base f 0

/-! ## Runner state reset (`trader/run_paper_sim_yahoo.py`) -/

/-- `max_date_ms = max(ts for ts, ... in data) if data else 0`. -/
def maxDateMs (data : List Candle) : Int :=
  match data.map (·.ts) with
  | [] => 0
  | t :: ts => ts.foldl max t

/-- The corrupt/future-dated state check of `run_paper_sim_yahoo.main`
(`if state.last_ts and state.last_ts > max_date_ms: ... reset`).  Returns the
(possibly reset) state and whether the warning was logged.  Python truthiness
of `state.last_ts` requires it to be non-`None` and nonzero. -/
def resetIfFutureState (initial_capital_jpy jpy_per_usdt : ℚ) (state : PaperState)
    (data : List Candle) : PaperState × Bool :=
  let max_date_ms := maxDateMs data
  match state.last_ts with
  | some t =>
      if t ≠ 0 ∧ max_date_ms < t then
        (⟨initial_capital_jpy / jpy_per_usdt, 0, none, none, none, 0,
          state.trades_total⟩, true)
      else (state, false)
  | none => (state, false)

/-! ## Paper broker (`trader/brokers/paper.py`) -/

namespace Brokers

/-- `FEE_RATE` from `trader/config.py`. -/
def FEE_RATE : ℚ := 5 / 10000

/-- The persisted state of `brokers/paper.PaperState` (same fields as the
engine's state). -/
structure PaperState where
  cash_quote : ℚ
  pos_base : ℚ
  last_ts : Option Int := none
  prev_diff : Option ℚ := none
  peak_equity_quote : ℚ := 0
  max_drawdown_pct : ℚ := 0
  trades_total : ℕ := 0
deriving Repr, DecidableEq

/-- The `bid` / `ask` / `last` / `timestamp` fields of the ticker used by
`PaperBroker.create_order`. -/
structure Ticker where
  timestamp : Int
  last : ℚ
  bid : ℚ
  ask : ℚ
deriving Repr, DecidableEq

/-- The order dict returned by `PaperBroker.create_order` (fields the claims
talk about). -/
structure Order where
  id : String
  timestamp : Int
  symbol : String
  type : String
  side : String
  amount : ℚ
  price : ℚ
  cost : ℚ
  average : ℚ
  filled : ℚ
  remaining : ℚ
  status : String
  fee_cost : ℚ
deriving Repr, DecidableEq

/-- `PaperBroker.create_order`.  A `ValueError` is `Except.error`; on error
the input state is left untouched and `state.save()` is never reached, so no
updated state exists.  On success the returned state is the state that
`state.save()` persists. -/
def create_order (st : PaperState) (ticker : Ticker) (symbol otype side : String)
    (amount : ℚ) : Except String (PaperState × Order) :=
  if otype = "market" then
    if side = "buy" ∨ side = "sell" then
      let exec_price := if side = "buy" then ticker.ask else ticker.bid
      let notional := amount * exec_price
      let fee := notional * FEE_RATE
      if side = "buy" then
        if st.cash_quote < notional + fee then .error "Insufficient funds"
        else
          let st2 := { st with cash_quote := st.cash_quote - (notional + fee),
                               pos_base := st.pos_base + amount,
                               trades_total := st.trades_total + 1 }
          .ok (st2, ⟨"paper_" ++ toString st2.trades_total, ticker.timestamp, symbol,
                     otype, side, amount, exec_price, notional, exec_price, amount, 0,
                     "closed", fee⟩)
      else
        if st.pos_base < amount then .error "Insufficient position"
        else
          let st2 := { st with pos_base := st.pos_base - amount,
                               cash_quote := st.cash_quote + (notional - fee),
                               trades_total := st.trades_total + 1 }
          .ok (st2, ⟨"paper_" ++ toString st2.trades_total, ticker.timestamp, symbol,
                     otype, side, amount, exec_price, notional, exec_price, amount, 0,
                     "closed", fee⟩)
    else .error ("Invalid side: " ++ side)
  else .error ("Unsupported order type: " ++ otype)

end Brokers

/-! ## Concrete data used by counterexamples and witnesses -/

/-- A flat candle: all four prices equal to `c`, zero volume. -/
def flatCandle (ts : Int) (c : ℚ) : Candle := ⟨ts, c, c, c, c, 0⟩

/-- The spec scenario closes `[100,100,100,100,100,105,110,115]` at
timestamps 1..8. -/
def c4Candles : List Candle :=
  [flatCandle 1 100, flatCandle 2 100, flatCandle 3 100, flatCandle 4 100,
   flatCandle 5 100, flatCandle 6 105, flatCandle 7 110, flatCandle 8 115]

/-- A fresh state with 1000 quote cash. -/
def fresh1000 : PaperState := ⟨1000, 0, none, none, none, 0, 0⟩

/-- The first six candles of the scenario (enough to trigger the buy). -/
def c1Candles : List Candle :=
  [flatCandle 1 100, flatCandle 2 100, flatCandle 3 100, flatCandle 4 100,
   flatCandle 5 100, flatCandle 6 105]

/-- Candles whose closes oscillate `1,2,1,2` at timestamps 1..4
(MA(1,2) crosses up at the last candle). -/
def c2Candles : List Candle :=
  [flatCandle 1 1, flatCandle 2 2, flatCandle 3 1, flatCandle 4 2]

/-- A fresh state with 100 quote cash. -/
def c2Fresh : PaperState := ⟨100, 0, none, none, none, 0, 0⟩

/-- The state persisted after simulating the first three of `c2Candles`
(its `last_ts` is `some 3`). -/
def c2PersistedState : PaperState :=
  ((simulate_ma_cross (c2Candles.take 3) c2Fresh 1 2 1 0 0 "X").map (·.1)).getD c2Fresh

/-! ## C4: the MA(3,5) scenario -/

/-- C4, counterexample.  On closes `[100,100,100,100,100,105,110,115]` with
MA(3,5), fee 0, slippage 0, `risk_pct = 1`, the simulator produces exactly one
BUY, but it is executed at the candle with timestamp 6 (the sixth candle,
close 105), not at the final candle (timestamp 8): the first `(short_ma -
long_ma)` transition from ≤0 to >0 happens as soon as both MAs are ready. -/
theorem C4_counterexample :
    ((simulate_ma_cross c4Candles fresh1000 3 5 1 0 0 "X").map
      fun r => r.2.1.map fun t => (t.side, t.time_ms)) = some [("BUY", 6)] ∧
    (c4Candles.map (·.ts)).getLastD 0 = 8 ∧ (6 : Int) ≠ 8 := by
  refine ⟨?_, by decide, by decide⟩
  norm_num [simulate_ma_cross, mkParams, initAcc, slipFactor, stepCandle, updateWindows,
    pushWindow, maOf, skipCandle, tradeStep, finishCandle, updatePeak, updateDrawdown,
    c4Candles, fresh1000, flatCandle, List.foldl]

/-- C4, amended claim: the scenario produces exactly one BUY trade, executed
at the sixth candle (timestamp 6, close 105, execution price 105), and no
trade at any other candle. -/
theorem C4_one_buy_at_sixth_candle :
    ((simulate_ma_cross c4Candles fresh1000 3 5 1 0 0 "X").map
      fun r => r.2.1.map fun t => (t.side, t.time_ms, t.price)) =
      some [("BUY", 6, 105)] := by
  norm_num [simulate_ma_cross, mkParams, initAcc, slipFactor, stepCandle, updateWindows,
    pushWindow, maOf, skipCandle, tradeStep, finishCandle, updatePeak, updateDrawdown,
    c4Candles, fresh1000, flatCandle, List.foldl]

/-! ## C1: cash non-negativity -/

/-- C1, counterexample.  With `risk_pct = 1` and `fee_rate = 1/1000` (both in
the claim's allowed ranges) and initial cash 1000 ≥ 0, the single BUY invests
all cash and charges the fee on top, leaving `cash_quote = -1 < 0` after the
applied trade. -/
theorem C1_counterexample :
    ((simulate_ma_cross c1Candles fresh1000 3 5 1 (1/1000) 0 "X").map
      fun r => r.2.1.map fun t => t.cash_quote_after) = some [-1] ∧
    ¬ (0 : ℚ) ≤ -1 := by
  refine ⟨?_, by norm_num⟩
  norm_num [simulate_ma_cross, mkParams, initAcc, slipFactor, stepCandle, updateWindows,
    pushWindow, maOf, skipCandle, tradeStep, finishCandle, updatePeak, updateDrawdown,
    c1Candles, fresh1000, flatCandle, List.foldl]

/-! ## C2: idempotent resume -/

/-- C2, counterexample.  Replaying, from the state persisted after a prefix
(`last_ts = 3`), only the candles with `ts > 3` does NOT reproduce the
full-history run: the rolling MA windows restart empty, so the cross-up at
timestamp 4 is missed (full history ends with cash 0 after a buy; the
claimed resume ends with cash 100 and no trade). -/
theorem C2_counterexample :
    c2PersistedState.last_ts = some 3 ∧
    ((simulate_ma_cross c2Candles c2Fresh 1 2 1 0 0 "X").map
      fun r => (r.1.cash_quote, r.2.1.length)) = some (0, 1) ∧
    ((simulate_ma_cross (c2Candles.filter fun cd => decide (3 < cd.ts))
        c2PersistedState 1 2 1 0 0 "X").map
      fun r => (r.1.cash_quote, r.2.1.length)) = some (100, 0) ∧
    ((0 : ℚ), 1).1 ≠ ((100 : ℚ), 0).1 := by
  refine ⟨?_, ?_, ?_, by norm_num⟩ <;>
  norm_num [simulate_ma_cross, mkParams, initAcc, slipFactor, stepCandle, updateWindows,
    pushWindow, maOf, skipCandle, tradeStep, finishCandle, updatePeak, updateDrawdown,
    c2Candles, c2Fresh, c2PersistedState, flatCandle, List.foldl, List.filter]

/-! ## C6: the daily-loss check is first and denies -/

/-- C6: whenever the ledger\'s daily PnL (already expressed in the guard
currency by `get_daily_pnl`) is strictly below the negated loss limit
(`max_daily_loss_jpy`, converted into the guard currency), `check_risk_limits`
returns `allowed = false` with a reason containing "Daily loss limit" — for
every broker view, every action and every ledger trade history, i.e. no other
check can pre-empt it: it is the first check evaluated. -/
theorem C6_daily_loss_denies_first (config : TraderConfig) (ledger : Ledger)
    (broker : BrokerView) (action : Option String) (now_sec : Int)
    (h : ledger.get_daily_pnl config now_sec < -lossLimit config) :
    (check_risk_limits config ledger broker action now_sec).1 = false ∧
    ∃ t, (check_risk_limits config ledger broker action now_sec).2 =
      "Daily loss limit" ++ t := by
  unfold check_risk_limits
  rw [if_pos h]
  refine ⟨rfl, ?_⟩
  have hsplit : ("Daily loss limit exceeded: loss_" : String) =
      "Daily loss limit" ++ " exceeded: loss_" := by decide
  rw [hsplit]
  simp only [String.append_assoc]
  exact ⟨_, rfl⟩

/-- A ledger whose two balance snapshots of the current day show a 1500 JPY
loss (the spec scenario: daily PnL −1500 against `max_daily_loss = 1000`). -/
def c6Ledger : Ledger :=
  ⟨[⟨90000000, 100, 5000⟩, ⟨95000000, 90, 3500⟩], []⟩

/-- C6, witness: the −1500 JPY scenario is denied with a "Daily loss limit"
reason by the defaults (`max_daily_loss_jpy = 1000`, JPY guard). -/
theorem C6_daily_loss_denies_first_witness :
    ({} : TraderConfig).max_daily_loss_jpy = 1000 ∧
    c6Ledger.get_daily_pnl {} 100000 = -1500 ∧
    ((check_risk_limits {} c6Ledger ⟨0, 0, 1, 1, 1⟩ (some "buy") 100000).1 = false ∧
     ∃ t, (check_risk_limits {} c6Ledger ⟨0, 0, 1, 1, 1⟩ (some "buy") 100000).2 =
       "Daily loss limit" ++ t) :=
  ⟨by norm_num,
   by
    have h1 : Int.fdiv 100000 86400 = 1 := by decide
    have h2 : strUpper "JPY" = "JPY" := by decide
    norm_num [Ledger.get_daily_pnl, c6Ledger, List.filter, h1, h2, List.cons_ne_nil],
   C6_daily_loss_denies_first {} c6Ledger ⟨0, 0, 1, 1, 1⟩ (some "buy") 100000
     (by
      have h1 : Int.fdiv 100000 86400 = 1 := by decide
      have h2 : strUpper "JPY" = "JPY" := by decide
      norm_num [Ledger.get_daily_pnl, lossLimit, c6Ledger, List.filter, h1, h2, List.cons_ne_nil])⟩

/-! ## C7: reconciler short-circuits -/

/-- A live-mode configuration whose credentials are not configured. -/
def c7LiveUnconfigured : TraderConfig := { trader_mode := "live" }

/-- C7, counterexample.  In live mode with unconfigured credentials the
reconciler short-circuits to `ok = false` with reason `NOT_CONFIGURED_LIVE`
(and exit code 2 in the source), not to `ok = true` with a Skipped reason as
the claim states. -/
theorem C7_counterexample :
    reconcileMain c7LiveUnconfigured ⟨[], []⟩ ⟨0, 0, []⟩ 7 0 =
      ⟨false, 7, "NOT_CONFIGURED_LIVE", []⟩ ∧
    (false : Bool) ≠ true := by
  refine ⟨?_, by decide⟩
  norm_num [reconcileMain, c7LiveUnconfigured, TraderConfig.is_live_capable]

/-- C7, amended claim: paper mode (any mode other than testnet/live)
short-circuits to `ok = true` with reason `SKIP_MODE_<MODE>`; testnet/live
mode with unconfigured credentials short-circuits to `ok = false` with reason
`NOT_CONFIGURED_LIVE`.  In both cases the result is independent of the ledger
and of the exchange data, i.e. the broker is never consulted. -/
theorem C7_short_circuit (config : TraderConfig) (lg lg2 : Ledger)
    (ex ex2 : ExchangeView) (ts now_sec : Int) :
    (config.trader_mode ≠ "testnet" ∧ config.trader_mode ≠ "live" →
      reconcileMain config lg ex ts now_sec =
        ⟨true, ts, "SKIP_MODE_" ++ strUpper config.trader_mode, []⟩ ∧
      reconcileMain config lg ex ts now_sec = reconcileMain config lg2 ex2 ts now_sec) ∧
    ((config.trader_mode = "testnet" ∨ config.trader_mode = "live") →
      config.is_live_capable = false →
      reconcileMain config lg ex ts now_sec = ⟨false, ts, "NOT_CONFIGURED_LIVE", []⟩ ∧
      reconcileMain config lg ex ts now_sec = reconcileMain config lg2 ex2 ts now_sec) := by
  constructor
  · rintro ⟨h1, h2⟩
    have hfc : (config.trader_mode == "testnet" || config.trader_mode == "live") = false := by
      simp [h1, h2]
    simp [reconcileMain, hfc]
  · rintro h hcap
    have hfc : (config.trader_mode == "testnet" || config.trader_mode == "live") = true := by
      rcases h with h | h <;> simp [h]
    simp [reconcileMain, hfc, hcap]

/-- C7, witness: the default (paper) configuration short-circuits to
`ok = true, reason = SKIP_MODE_PAPER` for any ledger and exchange data. -/
theorem C7_short_circuit_witness :
    (({} : TraderConfig).trader_mode ≠ "testnet" ∧
     ({} : TraderConfig).trader_mode ≠ "live") ∧
    reconcileMain {} ⟨[], []⟩ ⟨0, 0, []⟩ 3 0 = ⟨true, 3, "SKIP_MODE_PAPER", []⟩ := by
  have h := (C7_short_circuit {} ⟨[], []⟩ ⟨[], [⟨0, "t", "buy", 1, 1, 1, 1⟩]⟩
    ⟨0, 0, []⟩ ⟨1, 1, ["z"]⟩ 3 0).1 ⟨by decide, by decide⟩
  refine ⟨⟨by decide, by decide⟩, ?_⟩
  rw [h.1]
  have hs : "SKIP_MODE_" ++ strUpper "paper" = "SKIP_MODE_PAPER" := by decide
  rw [hs]

/-! ## C8: the retry wrapper -/

/-- A wrapped call that raises `AuthenticationError` on every attempt. -/
def c8AuthFail : ℕ → Except ErrKind Unit := fun _ => Except.error ErrKind.auth

/-- C8, counterexample.  A call that always raises an authentication error is
retried anyway: with `retry_max = 3`, `base = 1`, the wrapper performs four
calls with three backoff sleeps `[1, 2, 4]` before surfacing the error,
whereas the claim says Auth failures are not retried and surface immediately
(one call, no sleep). -/
theorem C8_counterexample :
    retry_request 3 1 c8AuthFail =
      ⟨Except.error ErrKind.auth, [1, 2, 4], 4⟩ ∧
    ¬ (([1, 2, 4] : List ℚ) = [] ∧ 4 = 1) := by
  have e3 : retryLoop 3 1 c8AuthFail 3 = ⟨Except.error ErrKind.auth, [], 1⟩ := by
    rw [retryLoop]; norm_num [c8AuthFail]
  have e2 : retryLoop 3 1 c8AuthFail 2 = ⟨Except.error ErrKind.auth, [4], 3 - 1⟩ := by
    rw [retryLoop]; norm_num [c8AuthFail, e3]
  have e1 : retryLoop 3 1 c8AuthFail 1 = ⟨Except.error ErrKind.auth, [2, 4], 3⟩ := by
    rw [retryLoop]; norm_num [c8AuthFail, e2]
  have e0 : retryLoop 3 1 c8AuthFail 0 = ⟨Except.error ErrKind.auth, [1, 2, 4], 4⟩ := by
    rw [retryLoop]; norm_num [c8AuthFail, e1]
  exact ⟨e0, by norm_num⟩

/-- C8, amended claim: `_retry_request` applies the exponential backoff
`base * 2 ^ attempt` to every failure kind alike — no classification happens:
a call failing with kind `e i` on attempt `i` is called `retry_max + 1` times,
sleeps `base * 2 ^ i` after each failed attempt but the last, and surfaces the
last error. -/
theorem C8_retries_every_kind (retry_max : ℕ) (base : ℚ) (e : ℕ → ErrKind) :
    retry_request retry_max base (fun i => (Except.error (e i) : Except ErrKind Unit)) =
      ⟨Except.error (e retry_max), (List.range retry_max).map (fun i => base * 2 ^ i),
       retry_max + 1⟩ := by
  have key : ∀ n a, retry_max - a = n → a ≤ retry_max →
      retryLoop retry_max base (fun i => (Except.error (e i) : Except ErrKind Unit)) a =
        ⟨Except.error (e retry_max), (List.range' a (retry_max - a)).map (fun i => base * 2 ^ i),
         retry_max - a + 1⟩ := by
    intro n
    induction n with
    | zero =>
        intro a hn ha
        have hae : a = retry_max := by omega
        subst hae
        rw [retryLoop]
        simp [hn]
    | succ k ih =>
        intro a hn ha
        have hlt : a < retry_max := by omega
        rw [retryLoop]
        simp only [hlt, dif_pos, if_pos]
        rw [ih (a + 1) (by omega) (by omega)]
        have hr : retry_max - a = (retry_max - (a + 1)) + 1 := by omega
        rw [hr, List.range'_succ]
        simp
  have h0 := key retry_max 0 (by omega) (Nat.zero_le _)
  rw [retry_request, h0, List.range_eq_range']
  simp

/-! ## C9: reset of a future-dated state -/

/-- C9, counterexample.  A persisted state whose `last_ts` is `0` — strictly
greater than the maximum data timestamp `-5` — is NOT reset and no warning is
logged, because `if state.last_ts and ...` treats the integer `0` as falsy.
(`ts_ms` is a signed `i64` in the data model, so negative timestamps — dates
before 1970 — are representable.) -/
theorem C9_counterexample :
    resetIfFutureState 10000 150 ⟨100, 0, some 0, none, none, 0, 7⟩ [flatCandle (-5) 1] =
      (⟨100, 0, some 0, none, none, 0, 7⟩, false) ∧
    maxDateMs [flatCandle (-5) 1] < 0 ∧
    (false : Bool) ≠ true := by
  refine ⟨?_, by norm_num [maxDateMs, flatCandle], by decide⟩
  norm_num [resetIfFutureState, maxDateMs, flatCandle]

/-- C9, amended claim: whenever the persisted `last_ts` is non-null, nonzero
and strictly greater than the maximum timestamp of the loaded candle data,
the runner resets the symbol state to a fresh state — initial cash
`initial_capital_jpy / jpy_per_usdt`, zero position, cleared
`last_ts`/`prev_diff`/`peak_equity_quote`, `max_drawdown_pct = 0` — while
preserving the cumulative `trades_total`, and logs the warning. -/
theorem C9_reset_preserves_trades_total (cap jpy : ℚ) (st : PaperState)
    (data : List Candle) (t : Int)
    (h1 : st.last_ts = some t) (h2 : t ≠ 0) (h3 : maxDateMs data < t) :
    resetIfFutureState cap jpy st data =
      (⟨cap / jpy, 0, none, none, none, 0, st.trades_total⟩, true) := by
  simp only [resetIfFutureState, h1]
  rw [if_pos ⟨h2, h3⟩]

/-- C9, witness: a state with `last_ts = 99` beyond the data's maximum
timestamp 10 is reset, keeping `trades_total = 4`. -/
theorem C9_reset_preserves_trades_total_witness :
    (⟨5, 2, some 99, some 1, some 7, -3, 4⟩ : PaperState).last_ts = some 99 ∧
    (99 : Int) ≠ 0 ∧ maxDateMs [flatCandle 10 1] < 99 ∧
    resetIfFutureState 10000 150 ⟨5, 2, some 99, some 1, some 7, -3, 4⟩ [flatCandle 10 1] =
      (⟨10000 / 150, 0, none, none, none, 0, 4⟩, true) :=
  ⟨rfl, by decide, by norm_num [maxDateMs, flatCandle],
   C9_reset_preserves_trades_total 10000 150 _ _ 99 rfl (by decide)
     (by norm_num [maxDateMs, flatCandle])⟩

/-! ## C10: the paper broker's market orders -/

/-- C10: for a market order with side `buy` or `sell`: a buy with
`cash_quote < notional + fee` raises "Insufficient funds" and a sell with
`pos_base < amount` raises "Insufficient position" (the `Except.error` result
carries no state: the paper state is unchanged and `state.save()` is never
reached); otherwise the fill is applied to cash/position and the returned
order has `status = "closed"`, `filled = amount` and `remaining = 0`. -/
theorem C10_create_order_market (st : Brokers.PaperState) (ticker : Brokers.Ticker)
    (symbol side : String) (amount : ℚ) :
    (side = "buy" →
      st.cash_quote < amount * ticker.ask + amount * ticker.ask * Brokers.FEE_RATE →
      Brokers.create_order st ticker symbol "market" side amount =
        Except.error "Insufficient funds") ∧
    (side = "sell" → st.pos_base < amount →
      Brokers.create_order st ticker symbol "market" side amount =
        Except.error "Insufficient position") ∧
    (side = "buy" →
      ¬ st.cash_quote < amount * ticker.ask + amount * ticker.ask * Brokers.FEE_RATE →
      ∃ st2 o, Brokers.create_order st ticker symbol "market" side amount =
          Except.ok (st2, o) ∧
        o.status = "closed" ∧ o.filled = amount ∧ o.remaining = 0 ∧
        st2.cash_quote =
          st.cash_quote - (amount * ticker.ask + amount * ticker.ask * Brokers.FEE_RATE) ∧
        st2.pos_base = st.pos_base + amount ∧ st2.trades_total = st.trades_total + 1) ∧
    (side = "sell" → ¬ st.pos_base < amount →
      ∃ st2 o, Brokers.create_order st ticker symbol "market" side amount =
          Except.ok (st2, o) ∧
        o.status = "closed" ∧ o.filled = amount ∧ o.remaining = 0 ∧
        st2.cash_quote =
          st.cash_quote + (amount * ticker.bid - amount * ticker.bid * Brokers.FEE_RATE) ∧
        st2.pos_base = st.pos_base - amount ∧ st2.trades_total = st.trades_total + 1) := by
  refine ⟨?_, ?_, ?_, ?_⟩
  · intro hs hlt
    subst hs
    simp [Brokers.create_order, hlt]
  · intro hs hlt
    subst hs
    simp [Brokers.create_order, hlt]
  · intro hs hge
    subst hs
    refine ⟨⟨st.cash_quote - (amount * ticker.ask + amount * ticker.ask * Brokers.FEE_RATE),
            st.pos_base + amount, st.last_ts, st.prev_diff, st.peak_equity_quote,
            st.max_drawdown_pct, st.trades_total + 1⟩,
           ⟨"paper_" ++ toString (st.trades_total + 1), ticker.timestamp, symbol, "market",
            "buy", amount, ticker.ask, amount * ticker.ask, ticker.ask, amount, 0,
            "closed", amount * ticker.ask * Brokers.FEE_RATE⟩,
           ?_, rfl, rfl, rfl, rfl, rfl, rfl⟩
    simp [Brokers.create_order, hge]
  · intro hs hge
    subst hs
    refine ⟨⟨st.cash_quote + (amount * ticker.bid - amount * ticker.bid * Brokers.FEE_RATE),
            st.pos_base - amount, st.last_ts, st.prev_diff, st.peak_equity_quote,
            st.max_drawdown_pct, st.trades_total + 1⟩,
           ⟨"paper_" ++ toString (st.trades_total + 1), ticker.timestamp, symbol, "market",
            "sell", amount, ticker.bid, amount * ticker.bid, ticker.bid, amount, 0,
            "closed", amount * ticker.bid * Brokers.FEE_RATE⟩,
           ?_, rfl, rfl, rfl, rfl, rfl, rfl⟩
    simp [Brokers.create_order, hge]

/-- C10, witness: with 100 USDT cash, ask 10 and amount 2 (notional 20,
fee 0.01), the buy succeeds, closes immediately and fills fully. -/
theorem C10_create_order_market_witness :
    (("buy" : String) = "buy" ∧
      ¬ (100 : ℚ) < 2 * 10 + 2 * 10 * Brokers.FEE_RATE) ∧
    (∃ st2 o,
      Brokers.create_order ⟨100, 1, none, none, 0, 0, 0⟩ ⟨5, 10, 9, 10⟩ "BTC/USDT"
        "market" "buy" 2 = Except.ok (st2, o) ∧
      o.status = "closed" ∧ o.filled = 2 ∧ o.remaining = 0 ∧
      st2.cash_quote = 100 - (2 * 10 + 2 * 10 * Brokers.FEE_RATE) ∧
      st2.pos_base = 1 + 2 ∧ st2.trades_total = 0 + 1) :=
  ⟨⟨rfl, by norm_num [Brokers.FEE_RATE]⟩,
   (C10_create_order_market ⟨100, 1, none, none, 0, 0, 0⟩ ⟨5, 10, 9, 10⟩ "BTC/USDT"
     "buy" 2).2.2.1 rfl (by norm_num [Brokers.FEE_RATE])⟩

/-! ## C3: peak / drawdown monotonicity -/

/-- The relation the claim asserts between two successive simulator states:
once set, the equity peak never decreases; the max drawdown never increases
and is never positive. -/
def DdPeakStep (a b : PaperState) : Prop :=
  (∀ pk, a.peak_equity_quote = some pk →
    ∃ pk2, b.peak_equity_quote = some pk2 ∧ pk ≤ pk2) ∧
  b.max_drawdown_pct ≤ a.max_drawdown_pct ∧ b.max_drawdown_pct ≤ 0

theorem updatePeak_mono (pk eq : ℚ) :
    ∃ pk2, updatePeak (some pk) eq = some pk2 ∧ pk ≤ pk2 := by
  by_cases h : pk < eq
  · exact ⟨eq, by simp [updatePeak, h], le_of_lt h⟩
  · exact ⟨pk, by simp [updatePeak, h], le_refl pk⟩

theorem updatePeak_isSome (peak : Option ℚ) (eq : ℚ) :
    ∃ pk2, updatePeak peak eq = some pk2 := by
  cases peak with
  | none => exact ⟨eq, rfl⟩
  | some pk =>
      rcases updatePeak_mono pk eq with ⟨pk2, h, _⟩
      exact ⟨pk2, h⟩

theorem updateDrawdown_le (peak : Option ℚ) (eq mdd : ℚ) :
    updateDrawdown peak eq mdd ≤ mdd := by
  unfold updateDrawdown
  cases peak with
  | none => exact le_refl _
  | some pk =>
      by_cases h : pk ≠ 0 ∧ 0 < pk
      · simp only [if_pos h]
        by_cases h2 : (eq / pk - 1) * 100 < mdd
        · simpa [h2] using le_of_lt h2
        · simp [h2]
      · simp [h]

theorem updateDrawdown_nonpos (peak : Option ℚ) (eq mdd : ℚ) (h : mdd ≤ 0) :
    updateDrawdown peak eq mdd ≤ 0 :=
  le_trans (updateDrawdown_le peak eq mdd) h

theorem finishCandle_ddpeak (a : PaperState) (acc : SimAcc) (ts : Int) (close diff : ℚ)
    (hpeak : acc.state.peak_equity_quote = a.peak_equity_quote)
    (hmdd : acc.state.max_drawdown_pct = a.max_drawdown_pct)
    (h : a.max_drawdown_pct ≤ 0) :
    DdPeakStep a (finishCandle acc ts close diff).state := by
  refine ⟨?_, ?_, ?_⟩
  · intro pk hpk
    simp only [finishCandle, hpeak, hpk]
    exact updatePeak_mono pk _
  · simp only [finishCandle, hmdd]
    exact updateDrawdown_le _ _ _
  · simp only [finishCandle, hmdd]
    exact updateDrawdown_nonpos _ _ _ h

theorem tradeStep_ddpeak (p : SimParams) (a : PaperState) (acc : SimAcc)
    (ts : Int) (close diff : ℚ) (hstate : acc.state = a) (h : a.max_drawdown_pct ≤ 0) :
    DdPeakStep a (tradeStep p acc ts close diff).state := by
  subst hstate
  unfold tradeStep
  cases hprev : acc.state.prev_diff with
  | none =>
      refine ⟨?_, le_refl _, h⟩
      intro pk hpk
      simp only [hpk]
      exact updatePeak_mono pk _
  | some prev =>
      by_cases hbuy : prev ≤ 0 ∧ 0 < diff ∧ 0 < acc.state.cash_quote ∧ 0 < p.risk_pct
      · simp only [if_pos hbuy]
        exact finishCandle_ddpeak acc.state _ ts close diff rfl rfl h
      · simp only [if_neg hbuy]
        by_cases hsell : 0 ≤ prev ∧ diff < 0 ∧ 0 < acc.state.pos_base
        · simp only [if_pos hsell]
          exact finishCandle_ddpeak acc.state _ ts close diff rfl rfl h
        · simp only [if_neg hsell]
          exact finishCandle_ddpeak acc.state _ ts close diff rfl rfl h

theorem stepCandle_ddpeak (p : SimParams) (acc : SimAcc) (cd : Candle)
    (h : acc.state.max_drawdown_pct ≤ 0) :
    DdPeakStep acc.state (stepCandle p acc cd).state := by
  unfold stepCandle
  by_cases hskip : skipCandle acc.state.last_ts cd.ts = true
  · simp only [hskip, if_true]
    exact ⟨fun pk hpk => ⟨pk, hpk, le_refl pk⟩, le_refl _, h⟩
  · simp only [hskip, if_false, Bool.false_eq_true]
    cases h1 : maOf (updateWindows p.ma_short p.ma_long acc.w cd.c).short_q
        (updateWindows p.ma_short p.ma_long acc.w cd.c).short_sum p.ma_short with
    | none =>
        cases h2 : maOf (updateWindows p.ma_short p.ma_long acc.w cd.c).long_q
            (updateWindows p.ma_short p.ma_long acc.w cd.c).long_sum p.ma_long with
        | none => exact ⟨fun pk hpk => ⟨pk, hpk, le_refl pk⟩, le_refl _, h⟩
        | some lma => exact ⟨fun pk hpk => ⟨pk, hpk, le_refl pk⟩, le_refl _, h⟩
    | some sma =>
        cases h2 : maOf (updateWindows p.ma_short p.ma_long acc.w cd.c).long_q
            (updateWindows p.ma_short p.ma_long acc.w cd.c).long_sum p.ma_long with
        | none => exact ⟨fun pk hpk => ⟨pk, hpk, le_refl pk⟩, le_refl _, h⟩
        | some lma => exact tradeStep_ddpeak p acc.state _ cd.ts cd.c (sma - lma) rfl h

/-- C3: along the successive loop states of `simulate_ma_cross` (the scanl of
`stepCandle` from a state whose `max_drawdown_pct` starts at 0),
`peak_equity_quote` never decreases once set, and `max_drawdown_pct` never
increases and is never positive. -/
theorem C3_peak_drawdown_monotone (ohlcv : List Candle) (s0 : PaperState)
    (ma_short ma_long : Int) (risk_pct fee_rate slippage_bps : ℚ) (symbol : String)
    (h0 : s0.max_drawdown_pct = 0) :
    List.Chain' (fun a b => DdPeakStep a.state b.state)
      (simTrace ohlcv s0 ma_short ma_long risk_pct fee_rate slippage_bps symbol) ∧
    ∀ a ∈ simTrace ohlcv s0 ma_short ma_long risk_pct fee_rate slippage_bps symbol,
      a.state.max_drawdown_pct ≤ 0 := by
  have key : ∀ (l : List Candle) (acc : SimAcc), acc.state.max_drawdown_pct ≤ 0 →
      List.Chain' (fun a b => DdPeakStep a.state b.state)
        (List.scanl (stepCandle (mkParams ma_short ma_long risk_pct fee_rate
          slippage_bps symbol)) acc l) ∧
      ∀ a ∈ List.scanl (stepCandle (mkParams ma_short ma_long risk_pct fee_rate
          slippage_bps symbol)) acc l, a.state.max_drawdown_pct ≤ 0 := by
    intro l
    induction l with
    | nil =>
        intro acc hacc
        constructor
        · simp [List.scanl]
        · intro a ha
          simp [List.scanl] at ha
          simpa [ha] using hacc
    | cons c t ih =>
        intro acc hacc
        have hstep := stepCandle_ddpeak (mkParams ma_short ma_long risk_pct fee_rate
          slippage_bps symbol) acc c hacc
        have hnext := hstep.2.2
        obtain ⟨ihc, ihm⟩ := ih (stepCandle (mkParams ma_short ma_long risk_pct fee_rate
          slippage_bps symbol) acc c) hnext
        constructor
        · rw [List.scanl_cons]
          cases t with
          | nil =>
              simp only [List.scanl] at ihc ⊢
              exact List.chain'_cons.mpr ⟨hstep, ihc⟩
          | cons c2 t2 =>
              rw [List.scanl_cons] at ihc ⊢
              exact List.chain'_cons.mpr ⟨hstep, ihc⟩
        · intro a ha
          rw [List.scanl_cons] at ha
          rcases List.mem_cons.mp ha with ha | ha
          · simpa [ha] using hacc
          · exact ihm a ha
  have h := key ohlcv (initAcc s0) (by simpa [initAcc] using le_of_eq h0)
  exact ⟨h.1, h.2⟩

/-- C3, witness: the monotonicity chain holds along the scenario trace. -/
theorem C3_peak_drawdown_monotone_witness :
    (fresh1000.max_drawdown_pct = 0) ∧
    (List.Chain' (fun a b => DdPeakStep a.state b.state)
      (simTrace c4Candles fresh1000 3 5 1 0 0 "X") ∧
     ∀ a ∈ simTrace c4Candles fresh1000 3 5 1 0 0 "X",
       a.state.max_drawdown_pct ≤ 0) :=
  ⟨rfl, C3_peak_drawdown_monotone c4Candles fresh1000 3 5 1 0 0 "X" rfl⟩

/-! ## C5: equity conservation -/

/-- Equity conservation along a trade list: starting from a cash/position
pair, each trade's post-trade equity at its execution price equals the
pre-trade equity at that price minus the trade's fee, and the trade's
`*_after` fields carry the running cash/position forward. -/
def conserves : ℚ → ℚ → List TradeRec → Prop
  | _, _, [] => True
  | cash, pos, t :: rest =>
      t.cash_quote_after + t.pos_base_after * t.price
        = cash + pos * t.price - t.fee_quote ∧
      conserves t.cash_quote_after t.pos_base_after rest

/-- The cash/position pair after replaying a trade list from `(cash, pos)`. -/
def endCP (cash pos : ℚ) : List TradeRec → ℚ × ℚ
  | [] => (cash, pos)
  | t :: rest => endCP t.cash_quote_after t.pos_base_after rest

theorem endCP_append (cash pos : ℚ) (l : List TradeRec) (t : TradeRec) :
    endCP cash pos (l ++ [t]) = (t.cash_quote_after, t.pos_base_after) := by
  induction l generalizing cash pos with
  | nil => rfl
  | cons x xs ih => exact ih _ _

theorem conserves_append (cash pos : ℚ) (l : List TradeRec) (t : TradeRec) :
    conserves cash pos (l ++ [t]) ↔
      conserves cash pos l ∧
      t.cash_quote_after + t.pos_base_after * t.price
        = (endCP cash pos l).1 + (endCP cash pos l).2 * t.price - t.fee_quote := by
  induction l generalizing cash pos with
  | nil => simp [conserves, endCP]
  | cons x xs ih =>
      simp only [List.cons_append, conserves, endCP, List.append_eq]
      rw [ih]
      tauto

theorem finishCandle_trades (acc : SimAcc) (ts : Int) (close diff : ℚ) :
    (finishCandle acc ts close diff).trades = acc.trades := rfl

theorem finishCandle_cash (acc : SimAcc) (ts : Int) (close diff : ℚ) :
    (finishCandle acc ts close diff).state.cash_quote = acc.state.cash_quote := rfl

theorem finishCandle_pos (acc : SimAcc) (ts : Int) (close diff : ℚ) :
    (finishCandle acc ts close diff).state.pos_base = acc.state.pos_base := rfl

theorem tradeStep_consInv (p : SimParams) (cash0 pos0 : ℚ) (acc : SimAcc)
    (ts : Int) (close diff : ℚ)
    (h1 : conserves cash0 pos0 acc.trades)
    (h2 : endCP cash0 pos0 acc.trades = (acc.state.cash_quote, acc.state.pos_base)) :
    conserves cash0 pos0 (tradeStep p acc ts close diff).trades ∧
    endCP cash0 pos0 (tradeStep p acc ts close diff).trades =
      ((tradeStep p acc ts close diff).state.cash_quote,
       (tradeStep p acc ts close diff).state.pos_base) := by
  unfold tradeStep
  cases hprev : acc.state.prev_diff with
  | none => exact ⟨h1, h2⟩
  | some prev =>
      by_cases hbuy : prev ≤ 0 ∧ 0 < diff ∧ 0 < acc.state.cash_quote ∧ 0 < p.risk_pct
      · simp only [if_pos hbuy, finishCandle_trades, finishCandle_cash, finishCandle_pos]
        constructor
        · refine (conserves_append _ _ _ _).mpr ⟨h1, ?_⟩
          rw [h2]
          dsimp only
          ring
        · rw [endCP_append]
      · simp only [if_neg hbuy]
        by_cases hsell : 0 ≤ prev ∧ diff < 0 ∧ 0 < acc.state.pos_base
        · simp only [if_pos hsell, finishCandle_trades, finishCandle_cash, finishCandle_pos]
          constructor
          · refine (conserves_append _ _ _ _).mpr ⟨h1, ?_⟩
            rw [h2]
            dsimp only
            ring
          · rw [endCP_append]
        · simp only [if_neg hsell, finishCandle_trades, finishCandle_cash, finishCandle_pos]
          exact ⟨h1, h2⟩

theorem stepCandle_consInv (p : SimParams) (cash0 pos0 : ℚ) (acc : SimAcc) (cd : Candle)
    (h1 : conserves cash0 pos0 acc.trades)
    (h2 : endCP cash0 pos0 acc.trades = (acc.state.cash_quote, acc.state.pos_base)) :
    conserves cash0 pos0 (stepCandle p acc cd).trades ∧
    endCP cash0 pos0 (stepCandle p acc cd).trades =
      ((stepCandle p acc cd).state.cash_quote, (stepCandle p acc cd).state.pos_base) := by
  unfold stepCandle
  by_cases hskip : skipCandle acc.state.last_ts cd.ts = true
  · simp only [hskip, if_true]
    exact ⟨h1, h2⟩
  · simp only [hskip, if_false, Bool.false_eq_true]
    cases hm1 : maOf (updateWindows p.ma_short p.ma_long acc.w cd.c).short_q
        (updateWindows p.ma_short p.ma_long acc.w cd.c).short_sum p.ma_short with
    | none =>
        cases hm2 : maOf (updateWindows p.ma_short p.ma_long acc.w cd.c).long_q
            (updateWindows p.ma_short p.ma_long acc.w cd.c).long_sum p.ma_long with
        | none => exact ⟨h1, h2⟩
        | some lma => exact ⟨h1, h2⟩
    | some sma =>
        cases hm2 : maOf (updateWindows p.ma_short p.ma_long acc.w cd.c).long_q
            (updateWindows p.ma_short p.ma_long acc.w cd.c).long_sum p.ma_long with
        | none => exact ⟨h1, h2⟩
        | some lma => exact tradeStep_consInv p cash0 pos0 _ cd.ts cd.c (sma - lma) h1 h2

theorem foldl_consInv (p : SimParams) (cash0 pos0 : ℚ) (l : List Candle) :
    ∀ acc : SimAcc, conserves cash0 pos0 acc.trades →
      endCP cash0 pos0 acc.trades = (acc.state.cash_quote, acc.state.pos_base) →
      conserves cash0 pos0 (l.foldl (stepCandle p) acc).trades ∧
      endCP cash0 pos0 (l.foldl (stepCandle p) acc).trades =
        ((l.foldl (stepCandle p) acc).state.cash_quote,
         (l.foldl (stepCandle p) acc).state.pos_base) := by
  induction l with
  | nil => exact fun acc h1 h2 => ⟨h1, h2⟩
  | cons c t ih =>
      intro acc h1 h2
      have hs := stepCandle_consInv p cash0 pos0 acc c h1 h2
      exact ih (stepCandle p acc c) hs.1 hs.2

/-- C5: for every run of `simulate_ma_cross`, the produced trade list
satisfies the conservation law: each trade's post-trade equity at the
execution price (`cash_quote_after + pos_base_after * price`) equals the
pre-trade equity at that price minus that trade's fee, the pre-trade
cash/position being the initial state's for the first trade and the previous
trade's `*_after` fields afterwards — a buy moves exactly the notional from
cash to position minus the fee, a sell moves it back minus the fee. -/
theorem C5_equity_conservation (ohlcv : List Candle) (s0 : PaperState)
    (ma_short ma_long : Int) (risk_pct fee_rate slippage_bps : ℚ) (symbol : String) :
    ∀ x ∈ simulate_ma_cross ohlcv s0 ma_short ma_long risk_pct fee_rate
        slippage_bps symbol,
      conserves s0.cash_quote s0.pos_base x.2.1 := by
  intro x hx
  unfold simulate_ma_cross at hx
  split at hx
  · simp at hx
  · simp only [Option.mem_def, Option.some.injEq] at hx
    subst hx
    exact (foldl_consInv _ s0.cash_quote s0.pos_base ohlcv (initAcc s0)
      trivial rfl).1

/-- The `1,2,1,2` close sequence used to exercise a buy for the C5 witness. -/
def c5Candles : List Candle :=
  [flatCandle 1 1, flatCandle 2 2, flatCandle 3 1, flatCandle 4 2]

/-- The C5 witness's initial state: 100 quote cash, no position. -/
def c5Start : PaperState := ⟨100, 0, none, none, none, 0, 0⟩

/-- The full result of running MA(1,2) over `c5Candles` from `c5Start`. -/
def c5Result : PaperState × List TradeRec × List (Int × ℚ) :=
  (⟨0, 50, some 4, some (1/2), some 100, 0, 1⟩,
   [⟨4, "X", "BUY", 2, 50, 100, 0, 0, 50, "ma_cross_up_buy"⟩],
   [(2, 100), (3, 100), (4, 100)])

theorem c5Result_mem :
    c5Result ∈ simulate_ma_cross c5Candles c5Start 1 2 1 0 0 "X" := by
  rw [Option.mem_def]
  norm_num [simulate_ma_cross, mkParams, initAcc, slipFactor, stepCandle, updateWindows,
    pushWindow, maOf, skipCandle, tradeStep, finishCandle, updatePeak, updateDrawdown,
    c5Candles, c5Start, c5Result, flatCandle, List.foldl]

/-- C5, witness: the conservation law holds for the concrete single-buy run. -/
theorem C5_equity_conservation_witness :
    (c5Result ∈ simulate_ma_cross c5Candles c5Start 1 2 1 0 0 "X") ∧
    conserves c5Start.cash_quote c5Start.pos_base c5Result.2.1 :=
  ⟨c5Result_mem,
   C5_equity_conservation c5Candles c5Start 1 2 1 0 0 "X" c5Result c5Result_mem⟩

/-! ## C1 (amended): cash non-negativity under safe parameters -/

/-- Conditions on the clamped parameters under which a trade can never drive
the cash balance negative: the invested fraction plus its fee fit in the
balance (`risk_pct * (1 + fee_rate) ≤ 1`), the fee is at most 100%, and the
slippage factor lies in `[0, 1]`. -/
def cashSafeParams (p : SimParams) : Prop :=
  0 ≤ p.risk_pct ∧ p.risk_pct * (1 + p.fee_rate) ≤ 1 ∧
  0 ≤ p.fee_rate ∧ p.fee_rate ≤ 1 ∧ 0 ≤ p.slip ∧ p.slip ≤ 1

/-- The invariant: current cash is non-negative and so is the recorded cash
after every trade so far. -/
def cashInv (acc : SimAcc) : Prop :=
  0 ≤ acc.state.cash_quote ∧ ∀ t ∈ acc.trades, 0 ≤ t.cash_quote_after

theorem tradeStep_cashInv (p : SimParams) (acc : SimAcc) (ts : Int) (close diff : ℚ)
    (hp : cashSafeParams p) (hc : 0 ≤ close) (h : cashInv acc) :
    cashInv (tradeStep p acc ts close diff) := by
  obtain ⟨hr0, hrf, hf0, hf1, hs0, hs1⟩ := hp
  unfold tradeStep
  cases hprev : acc.state.prev_diff with
  | none => exact h
  | some prev =>
      by_cases hbuy : prev ≤ 0 ∧ 0 < diff ∧ 0 < acc.state.cash_quote ∧ 0 < p.risk_pct
      · simp only [if_pos hbuy]
        set cash := acc.state.cash_quote with hcash
        set e := close * (1 + p.slip) with he
        have hnc : 0 ≤ cash -
            ((if 0 < e then cash * p.risk_pct / e else 0) * e +
             (if 0 < e then cash * p.risk_pct / e else 0) * e * p.fee_rate) := by
          by_cases hegt : 0 < e
          · rw [if_pos hegt]
            have hqe : cash * p.risk_pct / e * e = cash * p.risk_pct :=
              div_mul_cancel₀ _ (ne_of_gt hegt)
            rw [hqe]
            have hcashpos : 0 < cash := hbuy.2.2.1
            nlinarith [mul_nonneg hcashpos.le
              (sub_nonneg.mpr hrf : (0:ℚ) ≤ 1 - p.risk_pct * (1 + p.fee_rate))]
          · rw [if_neg hegt]
            simpa using hbuy.2.2.1.le
        constructor
        · simpa [finishCandle_cash] using hnc
        · rw [finishCandle_trades]
          intro t ht
          rcases List.mem_append.mp ht with ht | ht
          · exact h.2 t ht
          · rcases List.mem_singleton.mp ht with rfl
            simpa using hnc
      · simp only [if_neg hbuy]
        by_cases hsell : 0 ≤ prev ∧ diff < 0 ∧ 0 < acc.state.pos_base
        · simp only [if_pos hsell]
          set cash := acc.state.cash_quote with hcash
          set pos := acc.state.pos_base with hpos
          set e := close * (1 - p.slip) with he
          have hnot : 0 ≤ pos * e := by
            have he0 : 0 ≤ e := mul_nonneg hc (by linarith)
            exact mul_nonneg hsell.2.2.le he0
          have hnc : 0 ≤ cash + (pos * e - pos * e * p.fee_rate) := by
            nlinarith [mul_nonneg hnot (sub_nonneg.mpr hf1 : (0:ℚ) ≤ 1 - p.fee_rate),
              h.1]
          constructor
          · simpa [finishCandle_cash] using hnc
          · rw [finishCandle_trades]
            intro t ht
            rcases List.mem_append.mp ht with ht | ht
            · exact h.2 t ht
            · rcases List.mem_singleton.mp ht with rfl
              simpa using hnc
        · simp only [if_neg hsell]
          exact ⟨by simpa [finishCandle_cash] using h.1,
                 by rw [finishCandle_trades]; exact h.2⟩

theorem stepCandle_cashInv (p : SimParams) (acc : SimAcc) (cd : Candle)
    (hp : cashSafeParams p) (hc : 0 ≤ cd.c) (h : cashInv acc) :
    cashInv (stepCandle p acc cd) := by
  unfold stepCandle
  by_cases hskip : skipCandle acc.state.last_ts cd.ts = true
  · simpa only [hskip, if_true] using h
  · simp only [hskip, if_false, Bool.false_eq_true]
    cases hm1 : maOf (updateWindows p.ma_short p.ma_long acc.w cd.c).short_q
        (updateWindows p.ma_short p.ma_long acc.w cd.c).short_sum p.ma_short with
    | none =>
        cases hm2 : maOf (updateWindows p.ma_short p.ma_long acc.w cd.c).long_q
            (updateWindows p.ma_short p.ma_long acc.w cd.c).long_sum p.ma_long with
        | none => exact h
        | some lma => exact h
    | some sma =>
        cases hm2 : maOf (updateWindows p.ma_short p.ma_long acc.w cd.c).long_q
            (updateWindows p.ma_short p.ma_long acc.w cd.c).long_sum p.ma_long with
        | none => exact h
        | some lma => exact tradeStep_cashInv p _ cd.ts cd.c (sma - lma) hp hc h

theorem foldl_cashInv (p : SimParams) (hp : cashSafeParams p) (l : List Candle) :
    ∀ acc : SimAcc, (∀ cd ∈ l, 0 ≤ cd.c) → cashInv acc →
      cashInv (l.foldl (stepCandle p) acc) := by
  induction l with
  | nil => exact fun acc _ h => h
  | cons c t ih =>
      intro acc hcl h
      exact ih (stepCandle p acc c) (fun cd hcd => hcl cd (List.mem_cons_of_mem c hcd))
        (stepCandle_cashInv p acc c hp (hcl c (List.mem_cons_self c t)) h)

/-- C1, amended claim: if (after the function's own clamping) the allocated
fraction plus its fee fit into the balance — `risk_pct * (1 + fee_rate) ≤ 1`
— the fee rate is at most 1, the slippage is between 0 and 10000 bps, all
closes are non-negative and the initial cash is non-negative, then the cash
balance is non-negative after every applied trade and at the end of the run.
(The counterexample shows the extra conditions are needed: with
`risk_pct = 1` and any positive fee the buy leg charges the fee on top of the
full balance and drives the cash negative.) -/
theorem C1_cash_nonneg (ohlcv : List Candle) (s0 : PaperState)
    (ma_short ma_long : Int) (risk_pct fee_rate slippage_bps : ℚ) (symbol : String)
    (hfe : fee_rate ≤ 1) (hsb0 : 0 ≤ slippage_bps) (hsb1 : slippage_bps ≤ 10000)
    (hrf : max 0 (min risk_pct 1) * (1 + max 0 fee_rate) ≤ 1)
    (hcl : ∀ cd ∈ ohlcv, 0 ≤ cd.c) (h0 : 0 ≤ s0.cash_quote) :
    ∀ x ∈ simulate_ma_cross ohlcv s0 ma_short ma_long risk_pct fee_rate
        slippage_bps symbol,
      0 ≤ x.1.cash_quote ∧ ∀ t ∈ x.2.1, 0 ≤ t.cash_quote_after := by
  intro x hx
  unfold simulate_ma_cross at hx
  split at hx
  · simp at hx
  · simp only [Option.mem_def, Option.some.injEq] at hx
    subst hx
    have hp : cashSafeParams (mkParams ma_short ma_long risk_pct fee_rate
        slippage_bps symbol) := by
      refine ⟨le_max_left 0 _, hrf, le_max_left 0 _, max_le zero_le_one hfe, ?_, ?_⟩
      · exact div_nonneg hsb0 (by norm_num)
      · show slippage_bps / 10000 ≤ 1
        rw [div_le_one (by norm_num : (0:ℚ) < 10000)]
        exact hsb1
    exact foldl_cashInv _ hp ohlcv (initAcc s0) hcl ⟨h0, by simp [initAcc]⟩

/-- C1, witness: the MA(3,5) scenario with fee 0 keeps cash non-negative
after its single buy. -/
theorem C1_cash_nonneg_witness :
    ((0:ℚ) ≤ 1 ∧ (0:ℚ) ≤ 0 ∧ (0:ℚ) ≤ 10000 ∧
     max 0 (min 1 1) * (1 + max 0 (0:ℚ)) ≤ 1 ∧
     (∀ cd ∈ c4Candles, (0:ℚ) ≤ cd.c) ∧ (0:ℚ) ≤ fresh1000.cash_quote) ∧
    ∀ x ∈ simulate_ma_cross c4Candles fresh1000 3 5 1 0 0 "X",
      0 ≤ x.1.cash_quote ∧ ∀ t ∈ x.2.1, 0 ≤ t.cash_quote_after :=
  ⟨⟨by norm_num, by norm_num, by norm_num, by norm_num,
    by intro cd hcd; fin_cases hcd <;> norm_num [flatCandle], by norm_num [fresh1000]⟩,
   C1_cash_nonneg c4Candles fresh1000 3 5 1 0 0 "X" (by norm_num) (by norm_num)
     (by norm_num) (by norm_num)
     (by intro cd hcd; fin_cases hcd <;> norm_num [flatCandle])
     (by norm_num [fresh1000])⟩

/-! ## C2 (amended): resuming by replaying the full history -/

theorem skipCandle_iff (last : Option Int) (ts : Int) :
    skipCandle last ts = true ↔ ∃ T, last = some T ∧ ts ≤ T := by
  cases last <;> simp [skipCandle]

/-- The three possible outcomes of one loop iteration: skip (windows only),
trade step (both MAs ready), or update `last_ts` only (MA not ready). -/
theorem stepCandle_cases (p : SimParams) (acc : SimAcc) (cd : Candle) :
    (skipCandle acc.state.last_ts cd.ts = true ∧
      stepCandle p acc cd =
        { acc with w := updateWindows p.ma_short p.ma_long acc.w cd.c }) ∨
    (skipCandle acc.state.last_ts cd.ts = false ∧
      ((∃ sma lma,
        maOf (updateWindows p.ma_short p.ma_long acc.w cd.c).short_q
          (updateWindows p.ma_short p.ma_long acc.w cd.c).short_sum p.ma_short
          = some sma ∧
        maOf (updateWindows p.ma_short p.ma_long acc.w cd.c).long_q
          (updateWindows p.ma_short p.ma_long acc.w cd.c).long_sum p.ma_long
          = some lma ∧
        stepCandle p acc cd =
          tradeStep p { acc with w := updateWindows p.ma_short p.ma_long acc.w cd.c }
            cd.ts cd.c (sma - lma)) ∨
       stepCandle p acc cd =
        { acc with w := updateWindows p.ma_short p.ma_long acc.w cd.c,
                   state := { acc.state with last_ts := some cd.ts } })) := by
  by_cases hskip : skipCandle acc.state.last_ts cd.ts = true
  · exact Or.inl ⟨hskip, by simp [stepCandle, hskip]⟩
  · refine Or.inr ⟨by simpa using hskip, ?_⟩
    cases hm1 : maOf (updateWindows p.ma_short p.ma_long acc.w cd.c).short_q
        (updateWindows p.ma_short p.ma_long acc.w cd.c).short_sum p.ma_short with
    | none =>
        exact Or.inr (by simp [stepCandle, hskip, hm1])
    | some sma =>
        cases hm2 : maOf (updateWindows p.ma_short p.ma_long acc.w cd.c).long_q
            (updateWindows p.ma_short p.ma_long acc.w cd.c).long_sum p.ma_long with
        | none => exact Or.inr (by simp [stepCandle, hskip, hm1, hm2])
        | some lma =>
            exact Or.inl ⟨sma, lma, rfl, rfl, by simp [stepCandle, hskip, hm1, hm2]⟩

theorem finishCandle_w (acc : SimAcc) (ts : Int) (close diff : ℚ) :
    (finishCandle acc ts close diff).w = acc.w := rfl

theorem finishCandle_lastTs (acc : SimAcc) (ts : Int) (close diff : ℚ) :
    (finishCandle acc ts close diff).state.last_ts = some ts := rfl

theorem tradeStep_w (p : SimParams) (acc : SimAcc) (ts : Int) (close diff : ℚ) :
    (tradeStep p acc ts close diff).w = acc.w := by
  unfold tradeStep
  cases hprev : acc.state.prev_diff with
  | none => rfl
  | some prev =>
      by_cases hbuy : prev ≤ 0 ∧ 0 < diff ∧ 0 < acc.state.cash_quote ∧ 0 < p.risk_pct
      · simp only [if_pos hbuy, finishCandle_w]
      · simp only [if_neg hbuy]
        by_cases hsell : 0 ≤ prev ∧ diff < 0 ∧ 0 < acc.state.pos_base
        · simp only [if_pos hsell, finishCandle_w]
        · simp only [if_neg hsell, finishCandle_w]

theorem tradeStep_lastTs (p : SimParams) (acc : SimAcc) (ts : Int) (close diff : ℚ) :
    (tradeStep p acc ts close diff).state.last_ts = some ts := by
  unfold tradeStep
  cases hprev : acc.state.prev_diff with
  | none => rfl
  | some prev =>
      by_cases hbuy : prev ≤ 0 ∧ 0 < diff ∧ 0 < acc.state.cash_quote ∧ 0 < p.risk_pct
      · simp only [if_pos hbuy, finishCandle_lastTs]
      · simp only [if_neg hbuy]
        by_cases hsell : 0 ≤ prev ∧ diff < 0 ∧ 0 < acc.state.pos_base
        · simp only [if_pos hsell, finishCandle_lastTs]
        · simp only [if_neg hsell, finishCandle_lastTs]

theorem stepCandle_w (p : SimParams) (acc : SimAcc) (cd : Candle) :
    (stepCandle p acc cd).w = updateWindows p.ma_short p.ma_long acc.w cd.c := by
  rcases stepCandle_cases p acc cd with ⟨_, heq⟩ | ⟨_, ⟨sma, lma, _, _, heq⟩ | heq⟩ <;>
    rw [heq]
  rw [tradeStep_w]

/-- After one non-skipped iteration, `last_ts` is the candle's timestamp. -/
theorem stepCandle_lastTs_of_not_skip (p : SimParams) (acc : SimAcc) (cd : Candle)
    (h : skipCandle acc.state.last_ts cd.ts = false) :
    (stepCandle p acc cd).state.last_ts = some cd.ts := by
  rcases stepCandle_cases p acc cd with ⟨hs, _⟩ | ⟨_, ⟨sma, lma, _, _, heq⟩ | heq⟩
  · rw [hs] at h; cases h
  · rw [heq, tradeStep_lastTs]
  · rw [heq]

/-- After one iteration, `last_ts` is set and bounds both the candle's
timestamp and the previous `last_ts`. -/
theorem stepCandle_lastTs_bound (p : SimParams) (acc : SimAcc) (cd : Candle) :
    ∃ U, (stepCandle p acc cd).state.last_ts = some U ∧ cd.ts ≤ U ∧
      ∀ T, acc.state.last_ts = some T → T ≤ U := by
  by_cases hskip : skipCandle acc.state.last_ts cd.ts = true
  · obtain ⟨T, hT, hts⟩ := (skipCandle_iff _ _).mp hskip
    have hstep : stepCandle p acc cd =
        { acc with w := updateWindows p.ma_short p.ma_long acc.w cd.c } := by
      simp [stepCandle, hskip]
    refine ⟨T, by rw [hstep]; exact hT, hts, ?_⟩
    intro T2 hT2
    rw [hT] at hT2
    exact le_of_eq (Option.some.injEq _ _ ▸ hT2).symm
  · have hfalse : skipCandle acc.state.last_ts cd.ts = false := by simpa using hskip
    refine ⟨cd.ts, stepCandle_lastTs_of_not_skip p acc cd hfalse, le_refl _, ?_⟩
    intro T hT
    have hnle : ¬ cd.ts ≤ T := fun hle =>
      hskip ((skipCandle_iff _ _).mpr ⟨T, hT, hle⟩)
    exact le_of_lt (not_le.mp hnle)

theorem foldl_lastTs_mono (p : SimParams) (l : List Candle) :
    ∀ (acc : SimAcc) (T : Int), acc.state.last_ts = some T →
      ∃ U, (l.foldl (stepCandle p) acc).state.last_ts = some U ∧ T ≤ U := by
  induction l with
  | nil => exact fun acc T h => ⟨T, h, le_refl T⟩
  | cons c t ih =>
      intro acc T h
      obtain ⟨U1, hU1, _, hmono⟩ := stepCandle_lastTs_bound p acc c
      obtain ⟨U2, hU2, hle⟩ := ih (stepCandle p acc c) U1 hU1
      exact ⟨U2, hU2, le_trans (hmono T h) hle⟩

/-- The final `last_ts` dominates the timestamp of every processed candle. -/
theorem foldl_lastTs_mem (p : SimParams) (l : List Candle) :
    ∀ (acc : SimAcc), ∀ cd ∈ l,
      ∃ U, (l.foldl (stepCandle p) acc).state.last_ts = some U ∧ cd.ts ≤ U := by
  induction l with
  | nil => intro acc cd h; cases h
  | cons c t ih =>
      intro acc cd hcd
      rcases List.mem_cons.mp hcd with rfl | hcd
      · obtain ⟨U1, hU1, hts, _⟩ := stepCandle_lastTs_bound p acc cd
        obtain ⟨U2, hU2, hle⟩ := foldl_lastTs_mono p t (stepCandle p acc cd) U1 hU1
        exact ⟨U2, by simpa using hU2, le_trans hts hle⟩
      · obtain ⟨U, hU, hts⟩ := ih (stepCandle p acc c) cd hcd
        exact ⟨U, by simpa using hU, hts⟩

theorem stepCandle_skipped (p : SimParams) (acc : SimAcc) (cd : Candle)
    (h : skipCandle acc.state.last_ts cd.ts = true) :
    stepCandle p acc cd =
      { acc with w := updateWindows p.ma_short p.ma_long acc.w cd.c } := by
  simp [stepCandle, h]

/-- A fold over candles that are all already processed only updates the
rolling windows. -/
theorem foldl_all_skipped (p : SimParams) (l : List Candle) :
    ∀ acc : SimAcc, (∀ cd ∈ l, skipCandle acc.state.last_ts cd.ts = true) →
      l.foldl (stepCandle p) acc =
        { acc with
          w := l.foldl (fun a cd => updateWindows p.ma_short p.ma_long a cd.c) acc.w } := by
  induction l with
  | nil => intro acc _; simp
  | cons c t ih =>
      intro acc h
      rw [List.foldl_cons, List.foldl_cons,
        stepCandle_skipped p acc c (h c (List.mem_cons_self c t))]
      exact ih _ (fun cd hcd => h cd (List.mem_cons_of_mem c hcd))

/-- The rolling windows depend only on the candles, not on the state. -/
theorem foldl_windows (p : SimParams) (l : List Candle) :
    ∀ acc : SimAcc,
      (l.foldl (stepCandle p) acc).w =
        l.foldl (fun a cd => updateWindows p.ma_short p.ma_long a cd.c) acc.w := by
  induction l with
  | nil => intro acc; rfl
  | cons c t ih =>
      intro acc
      rw [List.foldl_cons, List.foldl_cons, ih, stepCandle_w]

theorem tradeStep_shift (p : SimParams) (acc : SimAcc) (ts : Int) (close diff : ℚ) :
    tradeStep p acc ts close diff =
      ⟨(tradeStep p ⟨acc.w, acc.state, [], []⟩ ts close diff).w,
       (tradeStep p ⟨acc.w, acc.state, [], []⟩ ts close diff).state,
       acc.trades ++ (tradeStep p ⟨acc.w, acc.state, [], []⟩ ts close diff).trades,
       acc.equity_curve ++
         (tradeStep p ⟨acc.w, acc.state, [], []⟩ ts close diff).equity_curve⟩ := by
  unfold tradeStep
  cases hprev : acc.state.prev_diff with
  | none => simp
  | some prev =>
      by_cases hbuy : prev ≤ 0 ∧ 0 < diff ∧ 0 < acc.state.cash_quote ∧ 0 < p.risk_pct
      · simp [hbuy, finishCandle]
      · simp only [if_neg hbuy]
        by_cases hsell : 0 ≤ prev ∧ diff < 0 ∧ 0 < acc.state.pos_base
        · simp [hsell, finishCandle]
        · simp [hsell, finishCandle]

theorem stepCandle_shift (p : SimParams) (acc : SimAcc) (cd : Candle) :
    stepCandle p acc cd =
      ⟨(stepCandle p ⟨acc.w, acc.state, [], []⟩ cd).w,
       (stepCandle p ⟨acc.w, acc.state, [], []⟩ cd).state,
       acc.trades ++ (stepCandle p ⟨acc.w, acc.state, [], []⟩ cd).trades,
       acc.equity_curve ++ (stepCandle p ⟨acc.w, acc.state, [], []⟩ cd).equity_curve⟩ := by
  by_cases hskip : skipCandle acc.state.last_ts cd.ts = true
  · rw [stepCandle_skipped p acc cd hskip,
      stepCandle_skipped p ⟨acc.w, acc.state, [], []⟩ cd hskip]
    simp
  · have hfalse : skipCandle acc.state.last_ts cd.ts = false := by simpa using hskip
    cases hm1 : maOf (updateWindows p.ma_short p.ma_long acc.w cd.c).short_q
        (updateWindows p.ma_short p.ma_long acc.w cd.c).short_sum p.ma_short with
    | none =>
        have h1 : stepCandle p acc cd =
            { acc with w := updateWindows p.ma_short p.ma_long acc.w cd.c,
                       state := { acc.state with last_ts := some cd.ts } } := by
          simp [stepCandle, hskip, hm1]
        have h2 : stepCandle p ⟨acc.w, acc.state, [], []⟩ cd =
            ⟨updateWindows p.ma_short p.ma_long acc.w cd.c,
             { acc.state with last_ts := some cd.ts }, [], []⟩ := by
          simp [stepCandle, hskip, hm1]
        rw [h1, h2]
        simp
    | some sma =>
        cases hm2 : maOf (updateWindows p.ma_short p.ma_long acc.w cd.c).long_q
            (updateWindows p.ma_short p.ma_long acc.w cd.c).long_sum p.ma_long with
        | none =>
            have h1 : stepCandle p acc cd =
                { acc with w := updateWindows p.ma_short p.ma_long acc.w cd.c,
                           state := { acc.state with last_ts := some cd.ts } } := by
              simp [stepCandle, hskip, hm1, hm2]
            have h2 : stepCandle p ⟨acc.w, acc.state, [], []⟩ cd =
                ⟨updateWindows p.ma_short p.ma_long acc.w cd.c,
                 { acc.state with last_ts := some cd.ts }, [], []⟩ := by
              simp [stepCandle, hskip, hm1, hm2]
            rw [h1, h2]
            simp
        | some lma =>
            have h1 : stepCandle p acc cd =
                tradeStep p { acc with
                  w := updateWindows p.ma_short p.ma_long acc.w cd.c }
                  cd.ts cd.c (sma - lma) := by
              simp [stepCandle, hskip, hm1, hm2]
            have h2 : stepCandle p ⟨acc.w, acc.state, [], []⟩ cd =
                tradeStep p ⟨updateWindows p.ma_short p.ma_long acc.w cd.c,
                  acc.state, [], []⟩ cd.ts cd.c (sma - lma) := by
              simp [stepCandle, hskip, hm1, hm2]
            rw [h1, h2]
            exact tradeStep_shift p _ cd.ts cd.c (sma - lma)

/-- Trades and equity points already accumulated pass through a fold
untouched and in front. -/
theorem foldl_shift (p : SimParams) (l : List Candle) :
    ∀ acc : SimAcc,
      l.foldl (stepCandle p) acc =
        ⟨(l.foldl (stepCandle p) ⟨acc.w, acc.state, [], []⟩).w,
         (l.foldl (stepCandle p) ⟨acc.w, acc.state, [], []⟩).state,
         acc.trades ++ (l.foldl (stepCandle p) ⟨acc.w, acc.state, [], []⟩).trades,
         acc.equity_curve ++
           (l.foldl (stepCandle p) ⟨acc.w, acc.state, [], []⟩).equity_curve⟩ := by
  induction l with
  | nil => intro acc; simp
  | cons c t ih =>
      intro acc
      rw [List.foldl_cons, List.foldl_cons]
      rw [ih (stepCandle p acc c)]
      rw [ih (stepCandle p ⟨acc.w, acc.state, [], []⟩ c)]
      rw [stepCandle_shift p acc c]
      simp [List.append_assoc]

/-- C2, amended claim: run the simulator over a prefix from `s0`, persist the
resulting state `sp`, then run the simulator again over the FULL candle list
from `sp` (the loop itself skips the already-processed candles after warming
its rolling windows on them).  This reproduces exactly the run over the full
list from `s0`: the final state is identical and the full run's trade list
and equity curve are the persisted run's followed by the resumed run's.
(Replaying only the candles with `ts > T` is not equivalent — see the
counterexample — because the rolling windows would restart empty.) -/
theorem C2_resume_replays_full_history (pre suf : List Candle) (s0 : PaperState)
    (ma_short ma_long : Int) (risk_pct fee_rate slippage_bps : ℚ) (symbol : String)
    (sp : PaperState) (trp : List TradeRec) (ecp : List (Int × ℚ))
    (s1 : PaperState) (tr1 : List TradeRec) (ec1 : List (Int × ℚ))
    (hpre : simulate_ma_cross pre s0 ma_short ma_long risk_pct fee_rate
      slippage_bps symbol = some (sp, trp, ecp))
    (hfull : simulate_ma_cross (pre ++ suf) s0 ma_short ma_long risk_pct fee_rate
      slippage_bps symbol = some (s1, tr1, ec1)) :
    ∃ tr2 ec2,
      simulate_ma_cross (pre ++ suf) sp ma_short ma_long risk_pct fee_rate
        slippage_bps symbol = some (s1, tr2, ec2) ∧
      tr1 = trp ++ tr2 ∧ ec1 = ecp ++ ec2 := by
  by_cases hguard : ma_short ≤ 0 ∨ ma_long ≤ 0 ∨ ma_long ≤ ma_short
  · unfold simulate_ma_cross at hpre
    rw [if_pos hguard] at hpre
    cases hpre
  · have hsim : ∀ (l : List Candle) (st : PaperState),
        simulate_ma_cross l st ma_short ma_long risk_pct fee_rate slippage_bps symbol =
          some ((l.foldl (stepCandle (mkParams ma_short ma_long risk_pct fee_rate
              slippage_bps symbol)) (initAcc st)).state,
            (l.foldl (stepCandle (mkParams ma_short ma_long risk_pct fee_rate
              slippage_bps symbol)) (initAcc st)).trades,
            (l.foldl (stepCandle (mkParams ma_short ma_long risk_pct fee_rate
              slippage_bps symbol)) (initAcc st)).equity_curve) := by
      intro l st
      unfold simulate_ma_cross
      rw [if_neg hguard]
    set p := mkParams ma_short ma_long risk_pct fee_rate slippage_bps symbol with hpdef
    rw [hsim] at hpre hfull
    rw [hsim]
    simp only [Option.some.injEq, Prod.mk.injEq] at hpre hfull
    obtain ⟨hsp, htrp, hecp⟩ := hpre
    obtain ⟨hs1, htr1, hec1⟩ := hfull
    set A := pre.foldl (stepCandle p) (initAcc s0) with hA
    have hskipall : ∀ cd ∈ pre, skipCandle sp.last_ts cd.ts = true := by
      intro cd hcd
      obtain ⟨U, hU, hts⟩ := foldl_lastTs_mem p pre (initAcc s0) cd hcd
      rw [← hA] at hU
      rw [← hsp]
      exact (skipCandle_iff _ _).mpr ⟨U, hU, hts⟩
    have hresume_pre : pre.foldl (stepCandle p) (initAcc sp) = ⟨A.w, sp, [], []⟩ := by
      rw [foldl_all_skipped p pre (initAcc sp) (by
        intro cd hcd
        simpa [initAcc] using hskipall cd hcd)]
      have hw : A.w = pre.foldl (fun a cd => updateWindows p.ma_short p.ma_long a cd.c)
          (initAcc s0).w := by
        rw [hA]
        exact foldl_windows p pre (initAcc s0)
      simp only [initAcc] at hw ⊢
      rw [hw]
    rw [List.foldl_append, hresume_pre]
    rw [List.foldl_append, ← hA] at hs1 htr1 hec1
    have hshift := foldl_shift p suf A
    rw [hsp] at hshift
    rw [hshift] at hs1 htr1 hec1
    refine ⟨(suf.foldl (stepCandle p) ⟨A.w, sp, [], []⟩).trades,
            (suf.foldl (stepCandle p) ⟨A.w, sp, [], []⟩).equity_curve, ?_, ?_, ?_⟩
    · rw [← hs1]
    · rw [← htr1, ← htrp]
    · rw [← hec1, ← hecp]

/-- Prefix for the C2 witness: one candle. -/
def c2wPre : List Candle := [flatCandle 1 1]

/-- Suffix for the C2 witness: one further candle. -/
def c2wSuf : List Candle := [flatCandle 2 1]

/-- Fresh state for the C2 witness. -/
def c2wS0 : PaperState := ⟨100, 0, none, none, none, 0, 0⟩

/-- State persisted after the prefix (`last_ts = 1`). -/
def c2wSp : PaperState := ⟨100, 0, some 1, none, none, 0, 0⟩

/-- Final state of the full run. -/
def c2wS1 : PaperState := ⟨100, 0, some 2, some 0, some 100, 0, 0⟩

theorem c2w_pre_eq :
    simulate_ma_cross c2wPre c2wS0 1 2 1 0 0 "X" = some (c2wSp, [], []) := by
  norm_num [simulate_ma_cross, mkParams, initAcc, slipFactor, stepCandle, updateWindows,
    pushWindow, maOf, skipCandle, tradeStep, finishCandle, updatePeak, updateDrawdown,
    c2wPre, c2wS0, c2wSp, flatCandle, List.foldl]

theorem c2w_full_eq :
    simulate_ma_cross (c2wPre ++ c2wSuf) c2wS0 1 2 1 0 0 "X" =
      some (c2wS1, [], [(2, 100)]) := by
  norm_num [simulate_ma_cross, mkParams, initAcc, slipFactor, stepCandle, updateWindows,
    pushWindow, maOf, skipCandle, tradeStep, finishCandle, updatePeak, updateDrawdown,
    c2wPre, c2wSuf, c2wS0, c2wS1, flatCandle, List.foldl]

/-- C2, witness: resuming from the persisted one-candle prefix state and
replaying the full two-candle history reproduces the full run. -/
theorem C2_resume_replays_full_history_witness :
    (simulate_ma_cross c2wPre c2wS0 1 2 1 0 0 "X" = some (c2wSp, [], [])) ∧
    (simulate_ma_cross (c2wPre ++ c2wSuf) c2wS0 1 2 1 0 0 "X" =
      some (c2wS1, [], [(2, 100)])) ∧
    ∃ tr2 ec2,
      simulate_ma_cross (c2wPre ++ c2wSuf) c2wSp 1 2 1 0 0 "X" =
        some (c2wS1, tr2, ec2) ∧
      ([] : List TradeRec) = [] ++ tr2 ∧ [((2 : Int), (100 : ℚ))] = [] ++ ec2 :=
  ⟨c2w_pre_eq, c2w_full_eq,
   C2_resume_replays_full_history c2wPre c2wSuf c2wS0 1 2 1 0 0 "X"
     c2wSp [] [] c2wS1 [] [(2, 100)] c2w_pre_eq c2w_full_eq⟩

end Trader
